import Mathlib

/-!
Verification development for the nitc-chatbot repository
(src/scraper.py, src/chatbot.py, src/removeTitles.py).

The Python code is shallowly embedded: pure functions become Lean functions,
Python `dict` pages become a structure of optional fields (a missing key is
`none`), floats become exact rationals, and the crawler's event loop becomes
an oracle-driven step function over an explicit state.  String primitives
(`in`, `str.count`, `str.split`, `str.strip`, `re.search` with a
word-boundary-wrapped escaped literal) are modelled over `List Char`.
-/

/-- A character counts as a regex word character (`\w`).  Models Python's
`re` word characters for the ASCII range: letters, digits and underscore. -/
def wordChar (c : Char) : Bool := c.isAlphanum || c == '_'

/-- `occursAt sub l i`: the list `sub` occurs in `l` starting at position `i`.
Models an occurrence of a substring in a Python string. -/
def occursAt (sub l : List Char) (i : Nat) : Bool :=
  decide ((l.drop i).take sub.length = sub)

/-- Python's `sub in s` substring test (`str.__contains__`). -/
def pyContains (sub l : List Char) : Bool :=
  (List.range (l.length + 1)).any (occursAt sub l)

/-- Fuel-driven worker for `pyCount`; consumes at least one character of `s`
per step, so fuel `s.length` suffices for a nonempty pattern. -/
def pyCountGo : Nat → List Char → List Char → Nat
  | 0, _, _ => 0
  | _ + 1, [], _ => 0
  | fuel + 1, c :: rest, sub =>
    if occursAt sub (c :: rest) 0 then
      1 + pyCountGo fuel ((c :: rest).drop sub.length) sub
    else
      pyCountGo fuel rest sub

/-- Python's `s.count(sub)`: number of non-overlapping occurrences of `sub`
in `s`, scanning left to right.  `s.count('')` is `len(s) + 1` in Python. -/
def pyCount (s sub : List Char) : Nat :=
  if sub = [] then s.length + 1 else pyCountGo s.length s sub

/-- Is the character at index `i` of `l` a word character?  Out-of-range
positions count as non-word (the default `' '` is not a word character). -/
def isWordAt (l : List Char) (i : Nat) : Bool := wordChar (l.getD i ' ')

/-- A regex word boundary (`\b`) holds at position `i` of `l`: exactly one of
the character before `i` and the character at `i` is a word character. -/
def boundaryAt (l : List Char) (i : Nat) : Bool :=
  (if i = 0 then false else isWordAt l (i - 1)) != isWordAt l i

/-- Models Python's `re.search(r'\b' + re.escape(kw) + r'\b', text) is not None`:
some occurrence of the literal `kw` in `text` has a word boundary at both ends. -/
def reSearchWB (kw l : List Char) : Bool :=
  (List.range (l.length + 1)).any fun i =>
    occursAt kw l i && boundaryAt l i && boundaryAt l (i + kw.length)

/-- Fuel-driven worker for `pyWords`; each step consumes at least one
character, so fuel `l.length` suffices. -/
def pyWordsGo : Nat → List Char → List (List Char)
  | 0, _ => []
  | _ + 1, [] => []
  | fuel + 1, c :: cs =>
    if c.isWhitespace then pyWordsGo fuel cs
    else
      (c :: cs).takeWhile (fun d => !d.isWhitespace)
        :: pyWordsGo fuel ((c :: cs).dropWhile (fun d => !d.isWhitespace))

/-- Python's `str.split()` with no separator: maximal runs of
non-whitespace characters, with no empty tokens. -/
def pyWords (l : List Char) : List (List Char) := pyWordsGo l.length l

/-- Python's `' '.join(words)`. -/
def joinSpace (ws : List (List Char)) : List Char := List.intercalate [' '] ws

/-- Python's `str.strip()`: remove leading and trailing whitespace. -/
def pyStripL (l : List Char) : List Char :=
  ((l.dropWhile Char.isWhitespace).reverse.dropWhile Char.isWhitespace).reverse

/-- `str.strip()` on strings. -/
def pyStrip (s : String) : String := ⟨pyStripL s.data⟩

/-- Python's `str.lower()` (ASCII range). -/
def pyLower (s : String) : String := ⟨s.data.map Char.toLower⟩

/-- Numeric value of a digit list (most significant first). -/
def digitsVal (l : List Char) : Nat :=
  l.foldl (fun acc c => 10 * acc + (c.toNat - '0'.toNat)) 0

/-- Modelled from the spec: Python's builtin `float(s)` (the spec's "parse the
weight as a number") on plain decimal literals — optional sign, digits, an
optional fractional part.  Exponent, `inf`/`nan` and underscore forms are not
modelled; the result is an exact rational.  Returns `none` where `float()`
raises `ValueError`. -/
def pyFloat (s : List Char) : Option ℚ :=
  let (sign, rest) : ℚ × List Char :=
    match s with
    | '+' :: r => (1, r)
    | '-' :: r => (-1, r)
    | _ => (1, s)
  let intPart := rest.takeWhile Char.isDigit
  let rest2 := rest.drop intPart.length
  match rest2 with
  | [] => if intPart = [] then none else some (sign * digitsVal intPart)
  | '.' :: fr =>
    let frac := fr.takeWhile Char.isDigit
    if fr.drop frac.length ≠ [] then none
    else if intPart = [] ∧ frac = [] then none
    else some (sign * (digitsVal intPart + digitsVal frac / 10 ^ frac.length))
  | _ => none

/-- Python's `s.split(sep)` for a single-character separator (used as
`ai_response.split('\n')`): empty pieces are kept. -/
def pySplitSep (sep : Char) (l : List Char) : List (List Char) :=
  match l with
  | [] => [[]]
  | c :: cs =>
    let rest := pySplitSep sep cs
    if c = sep then [] :: rest
    else
      match rest with
      | [] => [[c]]
      | piece :: more => (c :: piece) :: more

/-- A page dictionary as produced by the scraper and consumed by the chatbot.
Each field is one possible dict key; `none` models an absent key
(`page.get(key, default)` becomes `field.getD default`). -/
structure PyPage where
  title : Option String := none
  url : Option String := none
  content : Option String := none
  text_content : Option String := none
  categories : Option (List String) := none
  internal_links : Option (List (String × String)) := none
  last_modified : Option (Option String) := none
  scraped_at : Option ℚ := none
  word_count : Option Nat := none
deriving DecidableEq

/-- A weighted keyword dict `{'keyword': ..., 'weight': ...}` from
`WikiChatbot.generate_keywords`; the float weight is an exact rational. -/
structure WeightedKeyword where
  keyword : String
  weight : ℚ
deriving DecidableEq

/-- The raw pieces `WikiScraper.extract_page_data` reads off the parsed HTML
(`soup`): the title element's text, the content container's text after the
unwanted nav/infobox elements were removed, the `Category:` link texts, the
internal link (text, resolved-url) candidates, the footer last-modified text,
and the `time.time()` value.  The HTML parsing itself is the out-of-scope
extraction step; these are its outputs. -/
structure ExtractParts where
  titleText : Option String := none
  contentText : Option String := none
  categoryTexts : List String := []
  internalLinks : List (String × String) := []
  lastModifiedText : Option String := none
  scrapedAt : ℚ := 0
deriving DecidableEq

/-- The category-collection loop of `extract_page_data` (lines 172-177):
strip each link text, skip empties, append first occurrences only. -/
def collectCategories (texts : List String) : List String :=
  texts.foldl
    (fun acc t =>
      let category := pyStrip t
      if category ≠ "" ∧ category ∉ acc then acc ++ [category] else acc)
    []

/-- `WikiScraper.extract_page_data(soup, url)` (scraper.py lines 145-211):
builds the page dict.  The text is normalised with `' '.join(text.split())`,
the page text is stored under the key `text_content` — no `content` key is
ever created — and `word_count` is `len(text_content.split())`. -/
def extract_page_data (parts : ExtractParts) (url : String) : PyPage :=
  let title := match parts.titleText with
    | some t => pyStrip t
    | none => "Unknown Title"
  let text_content : List Char := match parts.contentText with
    | some raw => joinSpace (pyWords (pyStripL raw.data))
    | none => []
  { title := some title
    url := some url
    content := none
    text_content := some ⟨text_content⟩
    categories := some (collectCategories parts.categoryTexts)
    internal_links := some (parts.internalLinks.take 10)
    last_modified := some parts.lastModifiedText
    scraped_at := some parts.scrapedAt
    word_count := some (pyWords text_content).length }

/-- `page.get('title', '').lower()` as a character list. -/
def titleLower (p : PyPage) : List Char := (pyLower (p.title.getD "")).data

/-- `page.get('content', '').lower()` as a character list. -/
def contentLower (p : PyPage) : List Char := (pyLower (p.content.getD "")).data

/-- `' '.join(page.get('categories', [])).lower()` as a character list. -/
def categoriesLower (p : PyPage) : List Char :=
  (pyLower ⟨joinSpace ((p.categories.getD []).map String.data)⟩).data

/-- `' '.join(content.split()[:200])`: the first 200 words of the content,
the text the word-boundary content check runs on (chatbot.py line 134). -/
def contentStart (content : List Char) : List Char :=
  joinSpace ((pyWords content).take 200)

/-- The score contribution of a single weighted keyword in
`WikiChatbot.calculate_match_score` (chatbot.py lines 110-141): exact /
substring title match, category substring, per-occurrence content count,
word-boundary matches in title and in the first 200 content words, and the
partial-word title term (only for keywords longer than 3 characters). -/
def keywordScore (p : PyPage) (kw : String) (w : ℚ) : ℚ :=
  let title := titleLower p
  let content := contentLower p
  let cats := categoriesLower p
  let k := kw.data
  (if k = title then 50 * w else if pyContains k title then 20 * w else 0)
    + (if pyContains k cats then 15 * w else 0)
    + (pyCount content k : ℚ) * 2 * w
    + (if reSearchWB k title then 25 * w else 0)
    + (if reSearchWB k (contentStart content) then 5 * w else 0)
    + ((pyWords title).countP (fun word => pyContains k word && decide (3 < k.length)) : ℚ)
        * (3 * w)

/-- `WikiChatbot.calculate_match_score(page, weighted_keywords)`
(chatbot.py lines 102-143): the running `score +=` accumulation over the
weighted keywords, starting from `0.0`. -/
def calculate_match_score (p : PyPage) (kws : List WeightedKeyword) : ℚ :=
  kws.foldl (fun score kwd => score + keywordScore p kwd.keyword kwd.weight) 0

/-- Insert `x` into `ys` before the first element `y` with `le x y`.
Together with `stableSort` this models Python's stable `list.sort`. -/
def insertStable (le : α → α → Bool) (x : α) : List α → List α
  | [] => [x]
  | y :: ys => if le x y then x :: y :: ys else y :: insertStable le x ys

/-- Stable insertion sort.  `le a b` reads "`a` may be placed before `b`";
for Python's `sort(key=k, reverse=True)` take `le a b := k b ≤ k a`, which
keeps original order among equal keys — the documented stable behaviour of
`list.sort`, whose unique result any stable sort reproduces. -/
def stableSort (le : α → α → Bool) : List α → List α
  | [] => []
  | x :: xs => insertStable le x (stableSort le xs)

/-- One iteration of the keyword-parsing loop in
`WikiChatbot.generate_keywords` (chatbot.py lines 67-80): strip the line,
require a `':'`, split on the first `':'` only, strip and lowercase the
keyword, parse the weight as a float (a failure skips the line), and keep
the pair only if `len(keyword) > 1 and 1 <= weight <= 10`. -/
def parseKeywordLine (line : String) : Option WeightedKeyword :=
  let l := pyStripL line.data
  if pyContains [':'] l then
    let kwPart := l.takeWhile (fun c => c != ':')
    let keyword := pyLower ⟨pyStripL kwPart⟩
    match pyFloat (pyStripL (l.drop (kwPart.length + 1))) with
    | some weight =>
      if 1 < keyword.length ∧ 1 ≤ weight ∧ weight ≤ 10 then
        some ⟨keyword, weight⟩
      else none
    | none => none
  else none

/-- The pairs surviving the parsing loop of `generate_keywords`, in response
order: the AI response is split on `'\n'` and each line is parsed. -/
def parsedKeywords (resp : String) : List WeightedKeyword :=
  (pySplitSep '\n' resp.data).filterMap fun lineChars => parseKeywordLine ⟨lineChars⟩

/-- The fallback of `generate_keywords` (chatbot.py lines 83-89): the
whitespace tokens of the lowercased question longer than 2 characters,
each with weight `10.0`. -/
def fallbackKeywords (q : String) : List WeightedKeyword :=
  ((pyWords (pyLower q).data).filter (fun word => decide (2 < word.length))).map
    fun word => ⟨⟨word⟩, 10⟩

/-- The comparison used for `weighted_keywords.sort(key=..., reverse=True)`. -/
def byWeightDesc (a b : WeightedKeyword) : Bool := decide (b.weight ≤ a.weight)

/-- `WikiChatbot.generate_keywords` (chatbot.py lines 39-95) with the AI
response (`textOne`'s return value) passed in as an oracle input: parse the
response, fall back to question tokens if nothing parsed, then stable-sort
by descending weight. -/
def generate_keywords (resp q : String) : List WeightedKeyword :=
  let weighted := parsedKeywords resp
  let weighted := if weighted = [] then fallbackKeywords q else weighted
  stableSort byWeightDesc weighted

/-- The comparison used for `page_scores.sort(key=lambda x: x['score'],
reverse=True)`. -/
def byScoreDesc (a b : PyPage × ℚ) : Bool := decide (b.2 ≤ a.2)

/-- `WikiChatbot.get_best_matching_pages` (chatbot.py lines 145-171) with the
weighted keyword list (the result of `generate_keywords`) as a parameter:
score every page, keep only scores strictly above 0, stable-sort by
descending score, return the first `top_n` pages. -/
def get_best_matching_pages
    (wikiData : List PyPage) (kws : List WeightedKeyword) (topN : Nat) : List PyPage :=
  if wikiData = [] then []
  else
    let page_scores :=
      (wikiData.map fun p => (p, calculate_match_score p kws)).filter
        fun ps => decide (0 < ps.2)
    ((stableSort byScoreDesc page_scores).take topN).map Prod.fst

/-- The strict "key descending, then original index ascending" comparison on
index-carrying elements; a total order when the indices are distinct. -/
def keyDescIdxAsc (key : α → ℚ) (a b : Nat × α) : Bool :=
  decide (key b.2 < key a.2) || (decide (key a.2 = key b.2) && decide (a.1 ≤ b.1))

/-- Modelled from the spec's words, for comparison with
`get_best_matching_pages`: "returns exactly `min(N, count(score>0))` pages
sorted by descending score, stable on ties" — pages with positive score,
ordered by the total order "score descending, then original corpus position
ascending", truncated to `top_n`. -/
def rankSpec (wikiData : List PyPage) (kws : List WeightedKeyword) (topN : Nat) : List PyPage :=
  let indexed :=
    wikiData.enum.filter fun ip => decide (0 < calculate_match_score ip.2 kws)
  ((stableSort (keyDescIdxAsc fun p => calculate_match_score p kws) indexed).take topN).map
    Prod.snd

/-- Modelled from the spec's words, for comparison with `generate_keywords`:
"ordered by descending weight (stable tie-break: preserve first-seen order
among equal weights)" — the surviving pairs (or the fallback tokens), ordered
by the total order "weight descending, then first-seen position ascending". -/
def generateKeywordsSpec (resp q : String) : List WeightedKeyword :=
  let base := if parsedKeywords resp = [] then fallbackKeywords q else parsedKeywords resp
  (stableSort (keyDescIdxAsc WeightedKeyword.weight) base.enum).map Prod.snd

/-- Modelled from the spec's words, for comparison with `keywordScore`: the
title and category scoring terms only (exact/substring title, category
substring, word-boundary title, partial-word title) with both content terms
dropped. -/
def keywordScoreTitleCat (p : PyPage) (kw : String) (w : ℚ) : ℚ :=
  let title := titleLower p
  let cats := categoriesLower p
  let k := kw.data
  (if k = title then 50 * w else if pyContains k title then 20 * w else 0)
    + (if pyContains k cats then 15 * w else 0)
    + (if reSearchWB k title then 25 * w else 0)
    + ((pyWords title).countP (fun word => pyContains k word && decide (3 < k.length)) : ℚ)
        * (3 * w)

/-- The title-and-category-only total score, summed like
`calculate_match_score`. -/
def titleCatOnlyScore (p : PyPage) (kws : List WeightedKeyword) : ℚ :=
  kws.foldl (fun score kwd => score + keywordScoreTitleCat p kwd.keyword kwd.weight) 0

/-- The score contribution of the title terms a claim about exact-title
dominance singles out: the `50*weight` exact-title term (with its
`20*weight` substring `elif`) plus the `25*weight` word-boundary-in-title
term, from `calculate_match_score`. -/
def titleTermsContribution (p : PyPage) (kw : String) (w : ℚ) : ℚ :=
  (if kw.data = titleLower p then 50 * w
   else if pyContains kw.data (titleLower p) then 20 * w else 0)
    + (if reSearchWB kw.data (titleLower p) then 25 * w else 0)

/-- The mutable crawl state of `WikiScraper`: `scraped_pages` (the
duplicate-prevention URL set, as an append-ordered duplicate-free list) and
`scraped_data` (the accumulated page dicts). -/
structure CrawlState where
  scraped_pages : List String
  scraped_data : List PyPage
deriving DecidableEq

/-- The outcome of one `get_random_page` fetch, as an oracle input:
a non-200 status, a successful fetch resolving to `finalUrl` whose
extraction produced `parts` (`none` models `extract_page_data` failing, or
an error after the URL was registered), or an error raised before the
redirect resolved. -/
inductive FetchResult where
  | failStatus
  | fetched (finalUrl : String) (parts : Option ExtractParts)
  | fetchError
deriving DecidableEq

/-- `WikiScraper.get_random_page` (scraper.py lines 108-143) acting on the
URL set: on a 200 response the resolved URL is checked against
`scraped_pages` and, when fresh, added *before* extraction is attempted;
the page dict is returned only if extraction succeeds.  Every other path
returns `None` and leaves the set unchanged. -/
def getRandomPage (seen : List String) (fr : FetchResult) :
    List String × Option PyPage :=
  match fr with
  | .failStatus => (seen, none)
  | .fetchError => (seen, none)
  | .fetched url parts =>
    if url ∈ seen then (seen, none)
    else (seen ++ [url], parts.map fun pr => extract_page_data pr url)

/-- A batch of concurrent `get_random_page` tasks.  Each task's
check-then-add on the URL set has no await point in between, so the
concurrent batch behaves as some sequential order of atomic steps; the
produced page dicts are collected for the gather loop. -/
def runFetchBatch : List String → List FetchResult → List String × List PyPage
  | seen, [] => (seen, [])
  | seen, fr :: rest =>
    let step := getRandomPage seen fr
    let r := runFetchBatch step.1 rest
    (r.1, step.2.toList ++ r.2)

/-- One iteration of the `while` body of `WikiScraper.scrape_pages`
(scraper.py lines 231-261): run the batch, append every returned page dict
to `scraped_data`. -/
def runBatch (st : CrawlState) (frs : List FetchResult) : CrawlState :=
  { scraped_pages := (runFetchBatch st.scraped_pages frs).1
    scraped_data := st.scraped_data ++ (runFetchBatch st.scraped_pages frs).2 }

/-- Observable events of a crawl run: a batch of fetch tasks issued, a
periodic checkpoint write (line 253), or a run-end checkpoint write
(lines 264 and 272 of `scrape_pages`; lines 350 and 356 of `main`).
Each checkpoint event records the state being persisted. -/
inductive Ev where
  | fetchBatch (n : Nat)
  | save (st : CrawlState)
  | saveFinal (st : CrawlState)
deriving DecidableEq

/-- How a crawl run ended: reached the target, an `Exception` escaped the
batch (caught by `except Exception`), a `KeyboardInterrupt` (not caught by
`except Exception`), or the oracle script ran out (the run is cut short;
the real loop would keep iterating). -/
inductive Outcome where
  | success
  | error
  | interrupted
  | outOfScript
deriving DecidableEq

/-- Oracle input for one loop iteration: the batch's fetch results, or an
exception raised while the iteration ran. -/
inductive BatchOutcome where
  | results (frs : List FetchResult)
  | errorRaised
  | interruptRaised
deriving DecidableEq

/-- A finished run: final state, the events it emitted, how it ended. -/
structure RunResult where
  state : CrawlState
  events : List Ev
  outcome : Outcome
deriving DecidableEq

/-- The `while len(self.scraped_data) < target_pages` loop of
`WikiScraper.scrape_pages` together with its `try/except` (scraper.py lines
230-273): on loop exit a final checkpoint is saved (line 264); after each
batch a periodic checkpoint is saved when `len(scraped_data) % 10 == 0`
(line 253); `except Exception` saves a final checkpoint and re-raises
(lines 270-273); a `KeyboardInterrupt` propagates without saving. -/
def scrapeLoop (st : CrawlState) (target : Nat) :
    List BatchOutcome → RunResult
  | [] =>
    if target ≤ st.scraped_data.length then ⟨st, [.saveFinal st], .success⟩
    else ⟨st, [], .outOfScript⟩
  | b :: rest =>
    if target ≤ st.scraped_data.length then ⟨st, [.saveFinal st], .success⟩
    else
      match b with
      | .results frs =>
        let st' := runBatch st frs
        let evs :=
          Ev.fetchBatch frs.length ::
            (if st'.scraped_data.length % 10 = 0 then [.save st'] else [])
        let r := scrapeLoop st' target rest
        ⟨r.state, evs ++ r.events, r.outcome⟩
      | .errorRaised => ⟨st, [.saveFinal st], .error⟩
      | .interruptRaised => ⟨st, [], .interrupted⟩

/-- `WikiScraper.scrape_pages(target_pages)` (scraper.py lines 213-275),
starting from the state `load_checkpoint` produced: if
`target_pages - len(scraped_data) <= 0` the existing corpus is returned at
once (lines 218-221) — no fetch, no checkpoint write — otherwise the batch
loop runs.  Batch sizes are chosen by the code
(`min(max_concurrent, remaining)`); the oracle script supplies each batch's
fetch results. -/
def scrape_pages (st₀ : CrawlState) (target : Nat) (script : List BatchOutcome) :
    RunResult :=
  if target ≤ st₀.scraped_data.length then ⟨st₀, [], .success⟩
  else scrapeLoop st₀ target script

/-- The `main()` wrapper (scraper.py lines 313-357) around `scrape_pages`:
on success the data file is written and the checkpoint cleaned up (not a
checkpoint persist); `except KeyboardInterrupt` and `except Exception` each
save a checkpoint only when `scraper.scraped_data` is non-empty (lines
349-350 and 355-356). -/
def mainRun (st₀ : CrawlState) (target : Nat) (script : List BatchOutcome) :
    RunResult :=
  let r := scrape_pages st₀ target script
  match r.outcome with
  | .success => r
  | .error =>
    { r with
      events :=
        r.events ++ if r.state.scraped_data.isEmpty then [] else [.saveFinal r.state] }
  | .interrupted =>
    { r with
      events :=
        r.events ++ if r.state.scraped_data.isEmpty then [] else [.saveFinal r.state] }
  | .outOfScript => r

/-- The states captured by checkpoint writes (periodic and run-end), in
order of writing. -/
def savedStates (evs : List Ev) : List CrawlState :=
  evs.filterMap fun e =>
    match e with
    | .save st => some st
    | .saveFinal st => some st
    | .fetchBatch _ => none

/-- The number of run-end checkpoint persists among the events. -/
def finalSaves (evs : List Ev) : Nat :=
  evs.countP fun e =>
    match e with
    | .saveFinal _ => true
    | _ => false

/-- The checkpoint-relevant invariant of a crawl state: the URL set is
duplicate-free, every page's `url` is in it, and it is at least as large as
the page list. -/
def CrawlInv (st : CrawlState) : Prop :=
  st.scraped_pages.Nodup
    ∧ (∀ p ∈ st.scraped_data, ∃ u ∈ st.scraped_pages, p.url = some u)
    ∧ st.scraped_data.length ≤ st.scraped_pages.length

instance : DecidablePred CrawlInv := fun st => by
  unfold CrawlInv; infer_instance

/-- What `WikiScraper.save_checkpoint` serialises (scraper.py lines 80-85). -/
structure CheckpointPayload where
  scraped_data : List PyPage
  scraped_urls : List String
  last_saved : ℚ
  total_pages_scraped : Nat
deriving DecidableEq

/-- The two files `save_checkpoint` touches.  A file holds the payload its
JSON contents parse to (`none`: the file is absent). -/
structure FsState where
  checkpoint : Option CheckpointPayload
  temp : Option CheckpointPayload
deriving DecidableEq

/-- The file-system operations of `save_checkpoint`: writing the serialised
payload to the `.tmp` file, and `os.replace(temp_file, checkpoint_file)`. -/
inductive FsStep where
  | writeTemp (d : CheckpointPayload)
  | replaceTemp
deriving DecidableEq

/-- Effect of one file-system operation. -/
def applyStep (fs : FsState) : FsStep → FsState
  | .writeTemp d => { fs with temp := some d }
  | .replaceTemp => { checkpoint := fs.temp, temp := none }

/-- Run a sequence of file-system operations. -/
def runSteps (fs : FsState) (steps : List FsStep) : FsState :=
  steps.foldl applyStep fs

/-- `WikiScraper.save_checkpoint` (scraper.py lines 77-97) as its ordered
file-system operations: dump the payload to `checkpoint_file + '.tmp'`,
then `os.replace` it onto the checkpoint path.  `now` is `time.time()`. -/
def save_checkpoint_steps (st : CrawlState) (now : ℚ) : List FsStep :=
  [.writeTemp ⟨st.scraped_data, st.scraped_pages, now, st.scraped_data.length⟩,
   .replaceTemp]

/-- The `removeTitles.py` script body acting on the loaded `pages` list:
keep, in order, every page whose `page['title']` does not contain the input
text.  Subscripting a page without a `'title'` key raises, modelled as
`none`. -/
def removeTitlesRun (input_text : String) : List PyPage → Option (List PyPage)
  | [] => some []
  | p :: rest => do
    let t ← p.title
    let r ← removeTitlesRun input_text rest
    pure (if pyContains input_text.data t.data then r else p :: r)

theorem foldl_add_eq (f : α → ℚ) (l : List α) (init : ℚ) :
    l.foldl (fun s x => s + f x) init = init + (l.map f).sum := by
  induction l generalizing init with
  | nil => simp
  | cons x xs ih => simp [ih, add_assoc]

theorem calc_eq_sum (p : PyPage) (kws : List WeightedKeyword) :
    calculate_match_score p kws
      = (kws.map fun kwd => keywordScore p kwd.keyword kwd.weight).sum := by
  simpa using foldl_add_eq (fun kwd => keywordScore p kwd.keyword kwd.weight) kws 0

theorem titleCatOnly_eq_sum (p : PyPage) (kws : List WeightedKeyword) :
    titleCatOnlyScore p kws
      = (kws.map fun kwd => keywordScoreTitleCat p kwd.keyword kwd.weight).sum := by
  simpa using foldl_add_eq (fun kwd => keywordScoreTitleCat p kwd.keyword kwd.weight) kws 0

theorem keywordScore_eq_mul (p : PyPage) (kw : String) (w : ℚ) :
    keywordScore p kw w = w * keywordScore p kw 1 := by
  unfold keywordScore
  dsimp only
  split_ifs <;> ring

theorem keywordScore_one_nonneg (p : PyPage) (kw : String) :
    0 ≤ keywordScore p kw 1 := by
  unfold keywordScore
  dsimp only
  split_ifs <;> positivity

theorem pyContains_iff (sub l : List Char) :
    pyContains sub l = true ↔ ∃ s t, l = s ++ sub ++ t := by
  unfold pyContains occursAt
  simp only [List.any_eq_true, List.mem_range, decide_eq_true_eq, Nat.lt_succ_iff]
  constructor
  · rintro ⟨i, _, hocc⟩
    refine ⟨l.take i, (l.drop i).drop sub.length, ?_⟩
    conv_lhs => rw [← List.take_append_drop i l, ← List.take_append_drop sub.length (l.drop i)]
    rw [hocc, List.append_assoc]
  · rintro ⟨s, t, rfl⟩
    refine ⟨s.length, by simp, ?_⟩
    rw [List.append_assoc, List.drop_left, List.take_left]

theorem pyContains_self (l : List Char) : pyContains l l = true := by
  rw [pyContains_iff]
  exact ⟨[], [], by simp⟩

theorem reSearchWB_imp_contains {k l : List Char} (h : reSearchWB k l = true) :
    pyContains k l = true := by
  unfold reSearchWB at h
  unfold pyContains
  simp only [List.any_eq_true, Bool.and_eq_true] at h ⊢
  obtain ⟨i, hi, ⟨hocc, _⟩, _⟩ := h
  exact ⟨i, hi, hocc⟩

theorem mem_pyWordsGo_infix {w : List Char} :
    ∀ {fuel : Nat} {l : List Char}, w ∈ pyWordsGo fuel l → ∃ s t, l = s ++ w ++ t := by
  intro fuel
  induction fuel with
  | zero => intro l h; simp [pyWordsGo] at h
  | succ fuel ih =>
    intro l h
    match l with
    | [] => simp [pyWordsGo] at h
    | c :: cs =>
      rw [pyWordsGo] at h
      by_cases hws : c.isWhitespace
      · rw [if_pos hws] at h
        obtain ⟨s, t, rfl⟩ := ih h
        exact ⟨c :: s, t, rfl⟩
      · rw [if_neg hws, List.mem_cons] at h
        rcases h with rfl | h
        · exact ⟨[], (c :: cs).dropWhile (fun d => !d.isWhitespace), by
            simp [List.takeWhile_append_dropWhile]⟩
        · obtain ⟨s, t, ht⟩ := ih h
          refine ⟨(c :: cs).takeWhile (fun d => !d.isWhitespace) ++ s, t, ?_⟩
          conv_lhs => rw [← List.takeWhile_append_dropWhile (p := fun d => !d.isWhitespace)
            (l := c :: cs)]
          rw [ht]
          simp [List.append_assoc]

theorem mem_pyWords_infix {w : List Char} {l : List Char} (h : w ∈ pyWords l) :
    ∃ s t, l = s ++ w ++ t :=
  mem_pyWordsGo_infix h

theorem pyContains_of_word {k w l : List Char} (hw : w ∈ pyWords l)
    (hk : pyContains k w = true) : pyContains k l = true := by
  obtain ⟨s, t, rfl⟩ := mem_pyWords_infix hw
  obtain ⟨s', t', rfl⟩ := (pyContains_iff k w).mp hk
  rw [pyContains_iff]
  exact ⟨s ++ s', t' ++ t, by simp [List.append_assoc]⟩

theorem pyWords_nil : pyWords [] = [] := rfl

theorem pyCount_nil {k : List Char} (hk : k ≠ []) : pyCount [] k = 0 := by
  unfold pyCount
  rw [if_neg hk]
  rfl

theorem contentStart_nil : contentStart [] = [] := by
  simp [contentStart, pyWords_nil, joinSpace, List.intercalate]

theorem reSearchWB_nil {k : List Char} (hk : k ≠ []) : reSearchWB k [] = false := by
  simp only [reSearchWB, List.length_nil, Nat.zero_add, List.range_succ, List.range_zero,
    List.nil_append, List.any_cons, List.any_nil, Bool.or_false, occursAt]
  simp [List.take_nil, Ne.symm hk]

theorem keywordScore_titleCat_of_content_none (p : PyPage) (hp : p.content = none)
    (kw : String) (hkw : kw.data ≠ []) (w : ℚ) :
    keywordScore p kw w = keywordScoreTitleCat p kw w := by
  have hc : contentLower p = [] := by simp [contentLower, hp, pyLower]
  unfold keywordScore keywordScoreTitleCat
  dsimp only
  rw [hc, pyCount_nil hkw, contentStart_nil, reSearchWB_nil hkw]
  push_cast
  ring

/-- Claim C2: every page dict produced by `extract_page_data` stores the page
text under `'text_content'` and never creates a `'content'` key, so
`calculate_match_score` evaluates both content-based terms (the
per-occurrence count and the whole-word match in the first 200 words) over
the empty string, and for keyword lists satisfying the spec's
`WeightedKeyword` invariant (`len(term) > 1`) only the title and category
terms can contribute to such a page's score. -/
theorem content_key_mismatch_scoring (parts : ExtractParts) (url : String)
    (kws : List WeightedKeyword) (hkws : ∀ kw ∈ kws, 1 < kw.keyword.length) :
    (extract_page_data parts url).content = none
    ∧ contentLower (extract_page_data parts url) = []
    ∧ calculate_match_score (extract_page_data parts url) kws
        = titleCatOnlyScore (extract_page_data parts url) kws := by
  refine ⟨rfl, rfl, ?_⟩
  rw [calc_eq_sum, titleCatOnly_eq_sum]
  congr 1
  refine List.map_congr_left fun kwd hmem => ?_
  refine keywordScore_titleCat_of_content_none _ rfl _ ?_ _
  intro hdata
  have := hkws kwd hmem
  rw [String.length, hdata] at this
  simp at this

/-- Witness for C2 at a concrete scraped page and keyword list. -/
theorem content_key_mismatch_scoring_witness :
    calculate_match_score
        (extract_page_data
          { titleText := some "Docker", contentText := some "docker container stuff" } "u")
        [⟨"docker", 5⟩]
      = titleCatOnlyScore
          (extract_page_data
            { titleText := some "Docker", contentText := some "docker container stuff" } "u")
          [⟨"docker", 5⟩] :=
  (content_key_mismatch_scoring
    { titleText := some "Docker", contentText := some "docker container stuff" } "u"
    [⟨"docker", 5⟩] (by decide)).2.2

/-- Claim C6: for every page and weighted keyword list, raising the weight of
one keyword while the page (hence every match location) stays fixed strictly
increases the total score, or leaves it equal when that keyword's
contribution was already 0. -/
theorem score_weight_monotonicity (p : PyPage) (pre post : List WeightedKeyword)
    (kw : String) (w w' : ℚ) (h : w < w') :
    calculate_match_score p (pre ++ ⟨kw, w⟩ :: post)
        < calculate_match_score p (pre ++ ⟨kw, w'⟩ :: post)
    ∨ (keywordScore p kw w = 0
        ∧ calculate_match_score p (pre ++ ⟨kw, w'⟩ :: post)
            = calculate_match_score p (pre ++ ⟨kw, w⟩ :: post)) := by
  rw [calc_eq_sum, calc_eq_sum]
  simp only [List.map_append, List.map_cons, List.sum_append, List.sum_cons]
  rcases eq_or_lt_of_le (keywordScore_one_nonneg p kw) with hb | hb
  · right
    refine ⟨by rw [keywordScore_eq_mul, ← hb, mul_zero], ?_⟩
    rw [keywordScore_eq_mul p kw w', keywordScore_eq_mul p kw w, ← hb]
    ring
  · left
    have hlt : keywordScore p kw w < keywordScore p kw w' := by
      rw [keywordScore_eq_mul p kw w, keywordScore_eq_mul p kw w']
      exact mul_lt_mul_of_pos_right h hb
    linarith

/-- Witness for C6 at a concrete page, keyword and weight increase. -/
theorem score_weight_monotonicity_witness :
    calculate_match_score { title := some "Docker" } [⟨"docker", 1⟩]
        < calculate_match_score { title := some "Docker" } [⟨"docker", 2⟩]
    ∨ (keywordScore { title := some "Docker" } "docker" 1 = 0
        ∧ calculate_match_score { title := some "Docker" } [⟨"docker", 2⟩]
            = calculate_match_score { title := some "Docker" } [⟨"docker", 1⟩]) :=
  score_weight_monotonicity { title := some "Docker" } [] [] "docker" 1 2 (by norm_num)

theorem occursAt_self (k : List Char) : occursAt k k 0 = true := by
  simp [occursAt]

theorem reSearchWB_self {k : List Char} (hne : k ≠ [])
    (h0 : wordChar (k.getD 0 ' ') = true)
    (h1 : wordChar (k.getD (k.length - 1) ' ') = true) :
    reSearchWB k k = true := by
  unfold reSearchWB
  rw [List.any_eq_true]
  refine ⟨0, by simp, ?_⟩
  have hlen : k.length ≠ 0 := by simpa using hne
  have hout : k.getD k.length ' ' = ' ' := List.getD_eq_default _ _ le_rfl
  simp only [Bool.and_eq_true]
  refine ⟨⟨occursAt_self k, ?_⟩, ?_⟩
  · unfold boundaryAt
    rw [if_pos rfl, show isWordAt k 0 = true from h0]
    rfl
  · unfold boundaryAt
    simp only [Nat.zero_add]
    rw [if_neg hlen, show isWordAt k (k.length - 1) = true from h1,
      show isWordAt k k.length = false from by rw [isWordAt, hout]; rfl]
    rfl

theorem pyContains_ne_of_false {k l : List Char} (h : pyContains k l = false) :
    k ≠ l := by
  intro he
  rw [he, pyContains_self] at h
  simp at h

/-- The single-keyword score of a page in which the keyword occurs only as a
content substring: every title and category term vanishes. -/
theorem score_of_content_only (B : PyPage) (kw : String) (w : ℚ)
    (htitle : pyContains kw.data (titleLower B) = false)
    (hcats : pyContains kw.data (categoriesLower B) = false) :
    calculate_match_score B [⟨kw, w⟩]
      = (pyCount (contentLower B) kw.data : ℚ) * 2 * w
        + (if reSearchWB kw.data (contentStart (contentLower B)) then 5 * w else 0) := by
  rw [calc_eq_sum]
  simp only [List.map_cons, List.map_nil, List.sum_cons, List.sum_nil, add_zero]
  unfold keywordScore
  dsimp only
  have hwb : reSearchWB kw.data (titleLower B) = false := by
    cases hwb' : reSearchWB kw.data (titleLower B) with
    | false => rfl
    | true => rw [reSearchWB_imp_contains hwb'] at htitle; exact absurd htitle (by simp)
  have hcountP :
      (pyWords (titleLower B)).countP
          (fun word => pyContains kw.data word && decide (3 < kw.data.length)) = 0 := by
    rw [List.countP_eq_zero]
    intro word hword
    simp only [Bool.and_eq_true, decide_eq_true_eq, not_and]
    intro hc
    rw [pyContains_of_word hword hc] at htitle
    exact absurd htitle (by simp)
  rw [if_neg (pyContains_ne_of_false htitle), if_neg (by simp [htitle]),
    if_neg (by simp [hcats]), if_neg (by simp [hwb]), hcountP]
  push_cast
  ring

/-- Claim C5 (amended): for a keyword equal to a page's full lowercased title
that starts and ends with a word character (so the whole-word title term
fires and the title contribution is the full `(50+25)*weight`), the title
contribution exceeds the total score of any page in which the keyword occurs
merely as a content substring *with at most 34 occurrences*; with 35 or more
occurrences the unbounded `2*weight`-per-occurrence content term catches up. -/
theorem exact_title_dominance_amended (A B : PyPage) (kw : String) (w : ℚ)
    (hkw : kw.data = titleLower A) (hne : kw.data ≠ [])
    (hfirst : wordChar (kw.data.getD 0 ' ') = true)
    (hlast : wordChar (kw.data.getD (kw.data.length - 1) ' ') = true)
    (hw : 1 ≤ w)
    (_hcontent : pyContains kw.data (contentLower B) = true)
    (htitle : pyContains kw.data (titleLower B) = false)
    (hcats : pyContains kw.data (categoriesLower B) = false)
    (hcount : pyCount (contentLower B) kw.data ≤ 34) :
    calculate_match_score B [⟨kw, w⟩] < titleTermsContribution A kw w := by
  have hRHS : titleTermsContribution A kw w = 75 * w := by
    unfold titleTermsContribution
    rw [if_pos hkw, if_pos (by rw [← hkw]; exact reSearchWB_self hne hfirst hlast)]
    ring
  rw [score_of_content_only B kw w htitle hcats, hRHS]
  have hcount' : (pyCount (contentLower B) kw.data : ℚ) ≤ 34 := by exact_mod_cast hcount
  have hwpos : (0 : ℚ) < w := lt_of_lt_of_le one_pos hw
  have hterm : (pyCount (contentLower B) kw.data : ℚ) * 2 * w ≤ 68 * w := by
    have : (pyCount (contentLower B) kw.data : ℚ) * 2 ≤ 68 := by linarith
    exact mul_le_mul_of_nonneg_right this hwpos.le
  have h5 : (if reSearchWB kw.data (contentStart (contentLower B)) = true
      then (5 : ℚ) * w else 0) ≤ 5 * w := by
    split_ifs
    · exact le_rfl
    · positivity
  linarith

/-- Witness for the amended C5 at concrete pages. -/
theorem exact_title_dominance_amended_witness :
    calculate_match_score { title := some "Other", content := some "use docker twice docker" }
        [⟨"docker", 1⟩]
      < titleTermsContribution { title := some "Docker" } "docker" 1 :=
  exact_title_dominance_amended { title := some "Docker" }
    { title := some "Other", content := some "use docker twice docker" } "docker" 1
    (by decide) (by decide) (by decide) (by decide) (by norm_num)
    (by decide) (by decide) (by decide) (by decide)

set_option maxRecDepth 100000 in
/-- Counterexample to C5 as stated: with 38 content occurrences of "docker"
(each worth `2*weight`), a page where the keyword is merely a content
substring scores 76, exceeding the 75 the exact-title page's title terms
contribute, so the claimed dominance fails without a bound on the
occurrence count. -/
theorem exact_title_dominance_counterexample :
    ("docker" : String).data = titleLower { title := some "Docker" }
    ∧ pyContains "docker".data
        (contentLower { title := some "Other", content := some "adockerb adockerb adockerb adockerb adockerb adockerb adockerb adockerb adockerb adockerb adockerb adockerb adockerb adockerb adockerb adockerb adockerb adockerb adockerb adockerb adockerb adockerb adockerb adockerb adockerb adockerb adockerb adockerb adockerb adockerb adockerb adockerb adockerb adockerb adockerb adockerb adockerb adockerb" }) = true
    ∧ pyContains "docker".data
        (titleLower { title := some "Other", content := some "adockerb adockerb adockerb adockerb adockerb adockerb adockerb adockerb adockerb adockerb adockerb adockerb adockerb adockerb adockerb adockerb adockerb adockerb adockerb adockerb adockerb adockerb adockerb adockerb adockerb adockerb adockerb adockerb adockerb adockerb adockerb adockerb adockerb adockerb adockerb adockerb adockerb adockerb" }) = false
    ∧ pyContains "docker".data
        (categoriesLower { title := some "Other", content := some "adockerb adockerb adockerb adockerb adockerb adockerb adockerb adockerb adockerb adockerb adockerb adockerb adockerb adockerb adockerb adockerb adockerb adockerb adockerb adockerb adockerb adockerb adockerb adockerb adockerb adockerb adockerb adockerb adockerb adockerb adockerb adockerb adockerb adockerb adockerb adockerb adockerb adockerb" }) = false
    ∧ ¬(calculate_match_score { title := some "Other", content := some "adockerb adockerb adockerb adockerb adockerb adockerb adockerb adockerb adockerb adockerb adockerb adockerb adockerb adockerb adockerb adockerb adockerb adockerb adockerb adockerb adockerb adockerb adockerb adockerb adockerb adockerb adockerb adockerb adockerb adockerb adockerb adockerb adockerb adockerb adockerb adockerb adockerb adockerb" }
          [⟨"docker", 1⟩]
        < titleTermsContribution { title := some "Docker" } "docker" 1) := by
  refine ⟨by decide, by decide, by decide, by decide, ?_⟩
  rw [score_of_content_only { title := some "Other", content := some "adockerb adockerb adockerb adockerb adockerb adockerb adockerb adockerb adockerb adockerb adockerb adockerb adockerb adockerb adockerb adockerb adockerb adockerb adockerb adockerb adockerb adockerb adockerb adockerb adockerb adockerb adockerb adockerb adockerb adockerb adockerb adockerb adockerb adockerb adockerb adockerb adockerb adockerb" }
      "docker" 1 (by decide) (by decide)]
  rw [show pyCount
      (contentLower { title := some "Other", content := some "adockerb adockerb adockerb adockerb adockerb adockerb adockerb adockerb adockerb adockerb adockerb adockerb adockerb adockerb adockerb adockerb adockerb adockerb adockerb adockerb adockerb adockerb adockerb adockerb adockerb adockerb adockerb adockerb adockerb adockerb adockerb adockerb adockerb adockerb adockerb adockerb adockerb adockerb" })
      ("docker" : String).data = 38 from by decide]
  rw [show reSearchWB ("docker" : String).data
      (contentStart (contentLower { title := some "Other", content := some "adockerb adockerb adockerb adockerb adockerb adockerb adockerb adockerb adockerb adockerb adockerb adockerb adockerb adockerb adockerb adockerb adockerb adockerb adockerb adockerb adockerb adockerb adockerb adockerb adockerb adockerb adockerb adockerb adockerb adockerb adockerb adockerb adockerb adockerb adockerb adockerb adockerb adockerb" }))
      = false from by decide]
  rw [show titleTermsContribution { title := some "Docker" } "docker" 1 = 75 from by
    unfold titleTermsContribution
    rw [if_pos (by decide : ("docker" : String).data
        = titleLower { title := some "Docker" })]
    rw [if_pos (by decide : reSearchWB ("docker" : String).data
        (titleLower { title := some "Docker" }) = true)]
    norm_num]
  norm_num


theorem runFetchBatch_spec :
    ∀ (frs : List FetchResult) (seen : List String), seen.Nodup →
      (runFetchBatch seen frs).1.Nodup
      ∧ (∃ ext, (runFetchBatch seen frs).1 = seen ++ ext)
      ∧ (∀ p ∈ (runFetchBatch seen frs).2, ∃ u ∈ (runFetchBatch seen frs).1, p.url = some u)
      ∧ seen.length + (runFetchBatch seen frs).2.length ≤ (runFetchBatch seen frs).1.length
  | [], seen, h => by
    refine ⟨h, ⟨[], by simp [runFetchBatch]⟩, ?_, ?_⟩ <;> simp [runFetchBatch]
  | fr :: rest, seen, h => by
    have step : ∀ (seen' : List String) (pg : Option PyPage), seen'.Nodup →
        (∃ ext0, seen' = seen ++ ext0) →
        (∀ p ∈ pg.toList, ∃ u ∈ seen', p.url = some u) →
        seen.length + pg.toList.length ≤ seen'.length →
        (getRandomPage seen fr = (seen', pg)) →
        (runFetchBatch seen (fr :: rest)).1.Nodup
        ∧ (∃ ext, (runFetchBatch seen (fr :: rest)).1 = seen ++ ext)
        ∧ (∀ p ∈ (runFetchBatch seen (fr :: rest)).2,
            ∃ u ∈ (runFetchBatch seen (fr :: rest)).1, p.url = some u)
        ∧ seen.length + (runFetchBatch seen (fr :: rest)).2.length
            ≤ (runFetchBatch seen (fr :: rest)).1.length := by
      intro seen' pg hnd ⟨ext0, hext0⟩ hurl hlen hstep
      obtain ⟨ihnd, ⟨ext, hext⟩, ihurl, ihlen⟩ := runFetchBatch_spec rest seen' hnd
      have hrw : runFetchBatch seen (fr :: rest)
          = ((runFetchBatch seen' rest).1, pg.toList ++ (runFetchBatch seen' rest).2) := by
        simp only [runFetchBatch, hstep]
      rw [hrw]
      refine ⟨ihnd, ⟨ext0 ++ ext, by rw [hext, hext0, List.append_assoc]⟩, ?_, ?_⟩
      · intro p hp
        rcases List.mem_append.mp hp with hp | hp
        · obtain ⟨u, hu, hup⟩ := hurl p hp
          exact ⟨u, by rw [hext]; exact List.mem_append_left _ hu, hup⟩
        · exact ihurl p hp
      · have h1 : seen'.length = seen.length + ext0.length := by
          rw [hext0, List.length_append]
        simp only [List.length_append]
        omega
    match fr with
    | .failStatus =>
      exact step seen none h ⟨[], by simp⟩ (by simp) (by simp) rfl
    | .fetchError =>
      exact step seen none h ⟨[], by simp⟩ (by simp) (by simp) rfl
    | .fetched url parts =>
      by_cases hmem : url ∈ seen
      · exact step seen none h ⟨[], by simp⟩ (by simp) (by simp)
          (by simp [getRandomPage, hmem])
      · refine step (seen ++ [url]) (parts.map fun pr => extract_page_data pr url)
          (by simp [List.nodup_append, h, hmem]) ⟨[url], rfl⟩ ?_ ?_
          (by simp [getRandomPage, hmem])
        · intro p hp
          match parts with
          | none => simp at hp
          | some pr =>
            simp only [Option.map_some', Option.toList_some, List.mem_singleton] at hp
            subst hp
            exact ⟨url, by simp, rfl⟩
        · match parts with
          | none => simp
          | some pr => simp

theorem runBatch_inv {st : CrawlState} (frs : List FetchResult) (h : CrawlInv st) :
    CrawlInv (runBatch st frs) := by
  obtain ⟨hnd, hurl, hlen⟩ := h
  obtain ⟨bnd, ⟨ext, hext⟩, burl, blen⟩ := runFetchBatch_spec frs st.scraped_pages hnd
  refine ⟨bnd, ?_, ?_⟩
  · intro p hp
    rw [runBatch] at hp
    simp only [List.mem_append] at hp
    rcases hp with hp | hp
    · obtain ⟨u, hu, hup⟩ := hurl p hp
      exact ⟨u, by rw [runBatch, hext]; exact List.mem_append_left _ hu, hup⟩
    · exact burl p hp
  · rw [runBatch]
    simp only [List.length_append]
    omega

theorem savedStates_append (a b : List Ev) :
    savedStates (a ++ b) = savedStates a ++ savedStates b := by
  simp [savedStates]

theorem finalSaves_append (a b : List Ev) :
    finalSaves (a ++ b) = finalSaves a + finalSaves b := by
  simp [finalSaves, List.countP_append]

theorem scrapeLoop_inv :
    ∀ (script : List BatchOutcome) (st : CrawlState) (target : Nat), CrawlInv st →
      (∀ st' ∈ savedStates (scrapeLoop st target script).events, CrawlInv st')
      ∧ CrawlInv (scrapeLoop st target script).state
  | [], st, target, h => by
    by_cases ht : target ≤ st.scraped_data.length <;>
      simp [scrapeLoop, ht, savedStates, h]
  | b :: rest, st, target, h => by
    by_cases ht : target ≤ st.scraped_data.length
    · simp [scrapeLoop, ht, savedStates, h]
    · match b with
      | .results frs =>
        have hst' : CrawlInv (runBatch st frs) := runBatch_inv frs h
        have ih := scrapeLoop_inv rest (runBatch st frs) target hst'
        simp only [scrapeLoop, if_neg ht]
        refine ⟨?_, ih.2⟩
        intro st' hmem
        by_cases hmod : (runBatch st frs).scraped_data.length % 10 = 0
        · simp only [hmod, if_pos, List.cons_append, List.singleton_append,
            savedStates, List.filterMap_cons, List.filterMap_append] at hmem
          simp only [List.mem_cons, List.mem_append] at hmem
          rcases hmem with rfl | hmem
          · exact hst'
          · exact ih.1 st' (by simpa [savedStates] using hmem)
        · simp only [hmod, if_neg, not_false_eq_true, List.nil_append,
            savedStates, List.filterMap_cons] at hmem
          exact ih.1 st' (by simpa [savedStates] using hmem)
      | .errorRaised =>
        simp [scrapeLoop, ht, savedStates, h]
      | .interruptRaised =>
        simp [scrapeLoop, ht, savedStates, h]

/-- Claim C1 (amended): after every checkpoint write of a random-discovery
crawl run started from a state satisfying the checkpoint invariant, every
`Page.url` in `scraped_data` appears exactly once in `scraped_urls` (the set
is duplicate-free and contains each page's url), and the set is at least as
large as the page list — but, as the counterexample shows, it may be strictly
larger, because `get_random_page` registers the resolved URL before
extraction succeeds, so `|scraped_urls| = |scraped_data|` can fail. -/
theorem checkpoint_dedup_invariant_amended (st₀ : CrawlState) (target : Nat)
    (script : List BatchOutcome) (h₀ : CrawlInv st₀) :
    ∀ st' ∈ savedStates (mainRun st₀ target script).events,
      st'.scraped_pages.Nodup
      ∧ (∀ p ∈ st'.scraped_data, ∃ u ∈ st'.scraped_pages, p.url = some u)
      ∧ st'.scraped_data.length ≤ st'.scraped_pages.length := by
  intro st' hmem
  by_cases he : target ≤ st₀.scraped_data.length
  · rw [mainRun] at hmem
    simp only [scrape_pages, if_pos he] at hmem
    simp [savedStates] at hmem
  · have hloop := scrapeLoop_inv script st₀ target h₀
    rw [mainRun] at hmem
    simp only [scrape_pages, if_neg he] at hmem
    rcases ho : (scrapeLoop st₀ target script).outcome with _ | _ | _ | _ <;>
      rw [ho] at hmem
    · exact hloop.1 st' hmem
    · rcases hdata : (scrapeLoop st₀ target script).state.scraped_data.isEmpty <;>
        simp only [hdata, if_pos, if_neg, Bool.false_eq_true, not_false_eq_true,
          List.append_nil, savedStates_append] at hmem
      · rcases List.mem_append.mp hmem with hm | hm
        · exact hloop.1 st' hm
        · have : st' = (scrapeLoop st₀ target script).state := by
            simpa [savedStates] using hm
          rw [this]
          exact hloop.2
      · exact hloop.1 st' hmem
    · rcases hdata : (scrapeLoop st₀ target script).state.scraped_data.isEmpty <;>
        simp only [hdata, if_pos, if_neg, Bool.false_eq_true, not_false_eq_true,
          List.append_nil, savedStates_append] at hmem
      · rcases List.mem_append.mp hmem with hm | hm
        · exact hloop.1 st' hm
        · have : st' = (scrapeLoop st₀ target script).state := by
            simpa [savedStates] using hm
          rw [this]
          exact hloop.2
      · exact hloop.1 st' hmem
    · exact hloop.1 st' hmem

/-- Witness for the amended C1 on a concrete run that reaches its target. -/
theorem checkpoint_dedup_invariant_amended_witness :
    (⟨["u"], [extract_page_data {} "u"]⟩ : CrawlState).scraped_pages.Nodup
    ∧ (∀ p ∈ (⟨["u"], [extract_page_data {} "u"]⟩ : CrawlState).scraped_data,
        ∃ u ∈ (⟨["u"], [extract_page_data {} "u"]⟩ : CrawlState).scraped_pages,
          p.url = some u)
    ∧ (⟨["u"], [extract_page_data {} "u"]⟩ : CrawlState).scraped_data.length
        ≤ (⟨["u"], [extract_page_data {} "u"]⟩ : CrawlState).scraped_pages.length :=
  checkpoint_dedup_invariant_amended ⟨[], []⟩ 1 [.results [.fetched "u" (some {})]]
    (by refine ⟨List.nodup_nil, ?_, ?_⟩ <;> simp)
    ⟨["u"], [extract_page_data {} "u"]⟩ (List.Mem.head _)

/-- Counterexample to C1 as stated: one 200-status fetch whose extraction
fails registers the URL but appends no page; the checkpoint then written
(`0 % 10 == 0`) has one URL in `scraped_urls` and zero pages in
`scraped_data`, so `|scraped_urls| == |scraped_data|` fails at a checkpoint
write. -/
theorem checkpoint_dedup_counterexample :
    savedStates (scrape_pages ⟨[], []⟩ 5 [.results [.fetched "u" none]]).events
      = [⟨["u"], []⟩]
    ∧ ¬((⟨["u"], []⟩ : CrawlState).scraped_pages.length
        = (⟨["u"], []⟩ : CrawlState).scraped_data.length) := by
  exact ⟨rfl, by decide⟩

theorem scrapeLoop_finalSaves :
    ∀ (script : List BatchOutcome) (st : CrawlState) (target : Nat),
      finalSaves (scrapeLoop st target script).events
        = match (scrapeLoop st target script).outcome with
          | .success => 1
          | .error => 1
          | .interrupted => 0
          | .outOfScript => 0
  | [], st, target => by
    by_cases ht : target ≤ st.scraped_data.length <;>
      simp [scrapeLoop, ht, finalSaves]
  | b :: rest, st, target => by
    by_cases ht : target ≤ st.scraped_data.length
    · simp [scrapeLoop, ht, finalSaves]
    · match b with
      | .results frs =>
        have ih := scrapeLoop_finalSaves rest (runBatch st frs) target
        simp only [scrapeLoop, if_neg ht]
        by_cases hmod : (runBatch st frs).scraped_data.length % 10 = 0 <;>
          simp only [hmod, if_pos, if_neg, not_false_eq_true] <;>
          simpa [finalSaves] using ih
      | .errorRaised =>
        simp [scrapeLoop, ht, finalSaves]
      | .interruptRaised =>
        simp [scrapeLoop, ht, finalSaves]

/-- Claim C8 (amended): the number of run-end checkpoint persists is not
always exactly one.  On success it is one (zero when the target was already
met at load, where the run returns without saving); on an unhandled error it
is one from `scrape_pages`'s handler plus a second from `main`'s handler
when the accumulated page list is non-empty; on interruption it is one only
when the accumulated page list is non-empty, and zero otherwise. -/
theorem final_persist_count_amended (st₀ : CrawlState) (target : Nat)
    (script : List BatchOutcome) :
    finalSaves (mainRun st₀ target script).events
      = match (mainRun st₀ target script).outcome with
        | .success => if target ≤ st₀.scraped_data.length then 0 else 1
        | .error =>
          if (mainRun st₀ target script).state.scraped_data.isEmpty then 1 else 2
        | .interrupted =>
          if (mainRun st₀ target script).state.scraped_data.isEmpty then 0 else 1
        | .outOfScript => 0 := by
  by_cases he : target ≤ st₀.scraped_data.length
  · simp [mainRun, scrape_pages, he, finalSaves]
  · have hloop := scrapeLoop_finalSaves script st₀ target
    simp only [mainRun, scrape_pages, if_neg he]
    rcases ho : (scrapeLoop st₀ target script).outcome with _ | _ | _ | _ <;>
      rw [ho] at hloop <;>
      simp only [ho]
    · simpa [he] using hloop
    · have hloop1 : finalSaves (scrapeLoop st₀ target script).events = 1 := hloop
      rcases hdata : (scrapeLoop st₀ target script).state.scraped_data.isEmpty
      · rw [if_neg (by simp [hdata]), if_neg (by simp [hdata]),
          finalSaves_append, hloop1]
        simp [finalSaves]
      · rw [if_pos (by simp [hdata]), if_pos (by simp [hdata]),
          List.append_nil, hloop1]
    · have hloop0 : finalSaves (scrapeLoop st₀ target script).events = 0 := hloop
      rcases hdata : (scrapeLoop st₀ target script).state.scraped_data.isEmpty
      · rw [if_neg (by simp [hdata]), if_neg (by simp [hdata]),
          finalSaves_append, hloop0]
        simp [finalSaves]
      · rw [if_pos (by simp [hdata]), if_pos (by simp [hdata]),
          List.append_nil, hloop0]
    · exact hloop

/-- Counterexample to C8 as stated: a run interrupted before any page was
accumulated ends with zero final checkpoint persists, not exactly one —
`main`'s `KeyboardInterrupt` handler saves only when `scraped_data` is
non-empty. -/
theorem final_persist_counterexample :
    (mainRun ⟨[], []⟩ 1 [.interruptRaised]).outcome = .interrupted
    ∧ finalSaves (mainRun ⟨[], []⟩ 1 [.interruptRaised]).events = 0 := by
  decide

/-- Claim C9: when the loaded checkpoint already meets the target
(`need = target - len(scraped_data) <= 0`), `scrape_pages` performs no
fetches, writes nothing, and returns the existing corpus unchanged. -/
theorem target_met_noop (st₀ : CrawlState) (target : Nat)
    (script : List BatchOutcome) (h : target ≤ st₀.scraped_data.length) :
    scrape_pages st₀ target script = ⟨st₀, [], .success⟩ := by
  simp [scrape_pages, h]

/-- Witness for C9: a second run over a met target is a no-op. -/
theorem target_met_noop_witness :
    scrape_pages ⟨["u"], [{}]⟩ 1 [.results [.fetched "v" none]]
      = ⟨⟨["u"], [{}]⟩, [], .success⟩ :=
  target_met_noop ⟨["u"], [{}]⟩ 1 [.results [.fetched "v" none]] (by decide)

/-- Claim C7: `save_checkpoint` writes the serialised state to the `.tmp`
file and installs it with the single atomic `os.replace`; running any strict
prefix of its operations (a crash at any point before the rename) leaves the
durable checkpoint file exactly as it was — in particular a previously
committed parseable checkpoint stays intact and parseable — while the full
sequence installs the new payload. -/
theorem checkpoint_atomicity (fs : FsState) (st : CrawlState) (now : ℚ) :
    (runSteps fs (save_checkpoint_steps st now)).checkpoint
        = some ⟨st.scraped_data, st.scraped_pages, now, st.scraped_data.length⟩
    ∧ ∀ k, k < 2 →
        (runSteps fs ((save_checkpoint_steps st now).take k)).checkpoint
          = fs.checkpoint := by
  refine ⟨rfl, ?_⟩
  intro k hk
  match k, hk with
  | 0, _ => rfl
  | 1, _ => rfl

/-- Claim C10: the `removeTitles.py` curation step keeps exactly the pages
whose title does not contain the input text, in their original relative
order (the result is the order-preserving filter, a sublist of the input),
and removes pages by no other criterion. -/
theorem remove_titles_filter (pages : List PyPage) (s : String)
    (h : ∀ p ∈ pages, p.title.isSome) :
    removeTitlesRun s pages
        = some (pages.filter fun p => !pyContains s.data ((p.title.getD "").data))
    ∧ (pages.filter fun p => !pyContains s.data ((p.title.getD "").data)).Sublist
        pages := by
  refine ⟨?_, List.filter_sublist _⟩
  induction pages with
  | nil => rfl
  | cons p rest ih =>
    obtain ⟨t, ht⟩ := Option.isSome_iff_exists.mp (h p (List.mem_cons_self p rest))
    have hrest := ih fun q hq => h q (List.mem_cons_of_mem p hq)
    rw [removeTitlesRun, ht, List.filter_cons]
    simp only [Option.bind_eq_bind, Option.some_bind, hrest, Option.bind_some]
    rcases hc : pyContains s.data t.data with _ | _ <;>
      simp [ht, hc]

/-- Witness for C10 at a concrete corpus and input text. -/
theorem remove_titles_filter_witness :
    removeTitlesRun "ock" [{ title := some "Dock" }, { title := some "Cat" }]
        = some ([({ title := some "Dock" } : PyPage), { title := some "Cat" }].filter
            fun p => !pyContains "ock".data ((p.title.getD "").data))
    ∧ ([({ title := some "Dock" } : PyPage), { title := some "Cat" }].filter
          fun p => !pyContains "ock".data ((p.title.getD "").data)).Sublist
        [({ title := some "Dock" } : PyPage), { title := some "Cat" }] :=
  remove_titles_filter [{ title := some "Dock" }, { title := some "Cat" }] "ock"
    (by decide)

theorem insertStable_perm (le : α → α → Bool) (x : α) :
    ∀ l : List α, (insertStable le x l).Perm (x :: l)
  | [] => List.Perm.refl _
  | y :: ys => by
    rw [insertStable]
    by_cases h : le x y
    · rw [if_pos h]
    · rw [if_neg h]
      exact (((insertStable_perm le x ys).cons y).trans (List.Perm.swap x y ys))

theorem stableSort_perm (le : α → α → Bool) :
    ∀ l : List α, (stableSort le l).Perm l
  | [] => List.Perm.refl _
  | x :: xs =>
    (insertStable_perm le x (stableSort le xs)).trans
      ((stableSort_perm le xs).cons x)

theorem insertStable_pairwise (key : α → ℚ) (P : α → α → Prop) (x : α) :
    ∀ ys : List α,
      ys.Pairwise (fun a b => key b < key a ∨ (key a = key b ∧ P a b)) →
      (∀ y ∈ ys, P x y) →
      (insertStable (fun a b => decide (key b ≤ key a)) x ys).Pairwise
        (fun a b => key b < key a ∨ (key a = key b ∧ P a b))
  | [], _, _ => List.pairwise_singleton _ x
  | y :: ys, hp, hx => by
    rw [insertStable]
    by_cases h : key y ≤ key x
    · rw [if_pos (by simpa using h), List.pairwise_cons]
      refine ⟨?_, hp⟩
      intro z hz
      have hzy : key z ≤ key y := by
        rcases List.mem_cons.mp hz with rfl | hz'
        · exact le_refl _
        · rcases (List.pairwise_cons.mp hp).1 z hz' with h' | ⟨h', _⟩
          · exact h'.le
          · exact h'.ge
      rcases lt_or_eq_of_le (le_trans hzy h) with h' | h'
      · exact Or.inl h'
      · exact Or.inr ⟨h'.symm, hx z hz⟩
    · rw [if_neg (by simpa using h), List.pairwise_cons]
      obtain ⟨hy, hys⟩ := List.pairwise_cons.mp hp
      refine ⟨?_, insertStable_pairwise key P x ys hys
        (fun z hz => hx z (List.mem_cons_of_mem y hz))⟩
      intro z hz
      rcases List.mem_cons.mp ((insertStable_perm _ x ys).mem_iff.mp hz) with rfl | hz'
      · exact Or.inl (lt_of_not_le h)
      · exact hy z hz'

theorem stableSort_pairwise (key : α → ℚ) (P : α → α → Prop) :
    ∀ l : List α, l.Pairwise P →
      (stableSort (fun a b => decide (key b ≤ key a)) l).Pairwise
        (fun a b => key b < key a ∨ (key a = key b ∧ P a b))
  | [], _ => List.Pairwise.nil
  | x :: xs, hp => by
    obtain ⟨hx, hxs⟩ := List.pairwise_cons.mp hp
    exact insertStable_pairwise key P x _ (stableSort_pairwise key P xs hxs)
      (fun y hy => hx y ((stableSort_perm _ xs).mem_iff.mp hy))

theorem insertStable_congr (le le' : α → α → Bool) (x : α) :
    ∀ ys : List α, (∀ y ∈ ys, le x y = le' x y) →
      insertStable le x ys = insertStable le' x ys
  | [], _ => rfl
  | y :: ys, h => by
    rw [insertStable, insertStable, h y (List.mem_cons_self y ys),
      insertStable_congr le le' x ys (fun z hz => h z (List.mem_cons_of_mem y hz))]

theorem stableSort_congr (le le' : α → α → Bool) :
    ∀ l : List α, l.Pairwise (fun a b => le a b = le' a b) →
      stableSort le l = stableSort le' l
  | [], _ => rfl
  | x :: xs, hp => by
    obtain ⟨hx, hxs⟩ := List.pairwise_cons.mp hp
    rw [stableSort, stableSort, stableSort_congr le le' xs hxs,
      insertStable_congr le le' x _
        (fun y hy => hx y ((stableSort_perm le' xs).mem_iff.mp hy))]

theorem insertStable_map (f : α → β) (le : β → β → Bool) (x : α) :
    ∀ ys : List α,
      (insertStable (fun a b => le (f a) (f b)) x ys).map f
        = insertStable le (f x) (ys.map f)
  | [] => rfl
  | y :: ys => by
    rw [insertStable, List.map_cons, insertStable]
    by_cases h : le (f x) (f y)
    · rw [if_pos h, if_pos h, List.map_cons, List.map_cons]
    · rw [if_neg h, if_neg h, List.map_cons, insertStable_map f le x ys]

theorem stableSort_map (f : α → β) (le : β → β → Bool) :
    ∀ l : List α,
      (stableSort (fun a b => le (f a) (f b)) l).map f = stableSort le (l.map f)
  | [] => rfl
  | x :: xs => by
    rw [stableSort, List.map_cons, stableSort, ← stableSort_map f le xs,
      insertStable_map]

theorem fst_le_of_mem_enumFrom {p : Nat × α} :
    ∀ (l : List α) (n : Nat), p ∈ l.enumFrom n → n ≤ p.1
  | [], n, h => by simp at h
  | x :: xs, n, h => by
    rw [List.enumFrom_cons, List.mem_cons] at h
    rcases h with rfl | h
    · exact le_refl _
    · exact Nat.le_of_succ_le (fst_le_of_mem_enumFrom xs (n + 1) h)

theorem pairwise_fst_lt_enumFrom :
    ∀ (l : List α) (n : Nat), (l.enumFrom n).Pairwise (fun a b => a.1 < b.1)
  | [], _ => List.Pairwise.nil
  | x :: xs, n => by
    rw [List.enumFrom_cons, List.pairwise_cons]
    exact ⟨fun p hp => Nat.lt_of_succ_le (fst_le_of_mem_enumFrom xs (n + 1) hp),
      pairwise_fst_lt_enumFrom xs (n + 1)⟩

theorem byKey_eq_lex_of_lt (key : α → ℚ) {a b : Nat × α} (h : a.1 < b.1) :
    decide (key b.2 ≤ key a.2) = keyDescIdxAsc key a b := by
  unfold keyDescIdxAsc
  by_cases hle : key b.2 ≤ key a.2
  · rw [decide_eq_true hle]
    rcases lt_or_eq_of_le hle with hlt | heq
    · simp [hlt]
    · simp [heq.symm, h.le]
  · rw [decide_eq_false hle]
    have h1 : ¬ key b.2 < key a.2 := fun h' => hle h'.le
    have h2 : ¬ key a.2 = key b.2 := fun h' => hle h'.ge
    simp [h1, h2]

theorem stableSort_byKey_eq_lex (key : α → ℚ) (l : List (Nat × α))
    (hp : l.Pairwise fun a b => a.1 < b.1) :
    stableSort (fun a b => decide (key b.2 ≤ key a.2)) l
      = stableSort (keyDescIdxAsc key) l :=
  stableSort_congr _ _ l (hp.imp fun h => byKey_eq_lex_of_lt key h)

theorem pairwise_true (l : List α) : l.Pairwise fun _ _ => True := by
  induction l with
  | nil => exact List.Pairwise.nil
  | cons x xs ih => exact List.Pairwise.cons (fun _ _ => trivial) ih

theorem parseKeywordLine_valid {line : String} {kw : WeightedKeyword}
    (h : parseKeywordLine line = some kw) :
    1 < kw.keyword.length ∧ 1 ≤ kw.weight ∧ kw.weight ≤ 10 := by
  unfold parseKeywordLine at h
  dsimp only at h
  split at h
  · split at h
    · split at h
      · rename_i hcond
        cases h
        exact hcond
      · exact absurd h (by simp)
    · exact absurd h (by simp)
  · exact absurd h (by simp)

theorem fallbackKeywords_valid {q : String} {kw : WeightedKeyword}
    (h : kw ∈ fallbackKeywords q) :
    1 < kw.keyword.length ∧ 1 ≤ kw.weight ∧ kw.weight ≤ 10 := by
  unfold fallbackKeywords at h
  simp only [List.mem_map, List.mem_filter, decide_eq_true_eq] at h
  obtain ⟨word, ⟨_, hlen⟩, rfl⟩ := h
  exact ⟨lt_trans one_lt_two hlen, by norm_num, by norm_num⟩

theorem mem_generate_keywords_valid {resp q : String} {kw : WeightedKeyword}
    (h : kw ∈ generate_keywords resp q) :
    1 < kw.keyword.length ∧ 1 ≤ kw.weight ∧ kw.weight ≤ 10 := by
  unfold generate_keywords at h
  have hbase := (stableSort_perm byWeightDesc _).mem_iff.mp h
  by_cases hp : parsedKeywords resp = []
  · rw [if_pos hp] at hbase
    exact fallbackKeywords_valid hbase
  · rw [if_neg hp] at hbase
    obtain ⟨line, _, hline⟩ := List.mem_filterMap.mp hbase
    exact parseKeywordLine_valid hline

/-- Claim C4: `generate_keywords` parses the response line by line (split on
the first `':'`, term lowercased and trimmed, weight parsed as a number,
kept iff `len(term) > 1` and `1 <= weight <= 10`, malformed lines skipped);
when nothing survives it falls back to the >2-character tokens of the
lowercased question at weight 10; and the result is exactly the surviving
pairs (or the fallback tokens) ordered by descending weight with first-seen
order preserved among equal weights.  Stated as: equality with the
spec-side total-order ranking, descending weights, no invalid pair in the
output, and the output being a permutation of the parsed-or-fallback list. -/
theorem generate_keywords_ordering (resp q : String) :
    generate_keywords resp q = generateKeywordsSpec resp q
    ∧ ((generate_keywords resp q).map WeightedKeyword.weight).Pairwise
        (fun a b => b ≤ a)
    ∧ (generate_keywords resp q).countP
        (fun kw => !(decide (1 < kw.keyword.length) && decide (1 ≤ kw.weight)
            && decide (kw.weight ≤ 10))) = 0
    ∧ (generate_keywords resp q).Perm
        (if parsedKeywords resp = [] then fallbackKeywords q
         else parsedKeywords resp) := by
  have hgen : generate_keywords resp q
      = stableSort byWeightDesc
          (if parsedKeywords resp = [] then fallbackKeywords q
           else parsedKeywords resp) := rfl
  set base := if parsedKeywords resp = [] then fallbackKeywords q
    else parsedKeywords resp with hbase
  refine ⟨?_, ?_, ?_, ?_⟩
  · have h1 : (base.enum).Pairwise (fun a b => a.1 < b.1) :=
      pairwise_fst_lt_enumFrom base 0
    have hmap : (stableSort
          (fun a b => decide (WeightedKeyword.weight b.2 ≤ WeightedKeyword.weight a.2))
          base.enum).map Prod.snd
        = stableSort byWeightDesc (base.enum.map Prod.snd) :=
      stableSort_map Prod.snd byWeightDesc base.enum
    have hlex := stableSort_byKey_eq_lex WeightedKeyword.weight base.enum h1
    have hspec : generateKeywordsSpec resp q
        = (stableSort (keyDescIdxAsc WeightedKeyword.weight) base.enum).map Prod.snd :=
      rfl
    rw [hgen, hspec, ← hlex, hmap, List.enum_map_snd]
  · rw [hgen, show byWeightDesc
        = (fun a b => decide (WeightedKeyword.weight b ≤ WeightedKeyword.weight a))
        from rfl]
    have hp := stableSort_pairwise WeightedKeyword.weight (fun _ _ => True) base
      (pairwise_true base)
    rw [List.pairwise_map]
    refine hp.imp fun h => ?_
    rcases h with h' | ⟨h', _⟩
    · exact h'.le
    · exact h'.ge
  · rw [hgen, List.countP_eq_zero]
    intro kw hkw
    have hv : 1 < kw.keyword.length ∧ 1 ≤ kw.weight ∧ kw.weight ≤ 10 :=
      mem_generate_keywords_valid (hgen ▸ hkw)
    simp [hv.1, hv.2.1, hv.2.2]
  · rw [hgen]
    exact stableSort_perm byWeightDesc base

theorem filter_map_pos_score (F : PyPage → ℚ) :
    ∀ l : List (Nat × PyPage),
      ((l.map Prod.snd).map fun p => (p, F p)).filter (fun ps => decide (0 < ps.2))
        = (l.filter fun ip => decide (0 < F ip.2)).map fun ip => (ip.2, F ip.2)
  | [] => rfl
  | x :: xs => by
    simp only [List.map_cons, List.filter_cons]
    by_cases h : (0 : ℚ) < F x.2
    · rw [if_pos (by simpa using h), if_pos (by simpa using h), List.map_cons,
        filter_map_pos_score F xs]
    · rw [if_neg (by simpa using h), if_neg (by simpa using h),
        filter_map_pos_score F xs]

/-- Claim C3: ranking with limit `top_n` returns exactly
`min(top_n, count(score > 0))` pages; zero-scoring pages are excluded; the
result is ordered by descending score; and equal scores keep original corpus
order — stated as equality with the spec-side ranking by the total order
"score descending, then corpus position ascending". -/
theorem rank_topN_ordering (d : List PyPage) (kws : List WeightedKeyword) (n : Nat) :
    (get_best_matching_pages d kws n).length
        = min n (d.countP fun p => decide (0 < calculate_match_score p kws))
    ∧ ((get_best_matching_pages d kws n).map fun p => calculate_match_score p kws).Pairwise
        (fun a b => b ≤ a)
    ∧ get_best_matching_pages d kws n = rankSpec d kws n := by
  by_cases hd : d = []
  · subst hd
    exact ⟨by simp [get_best_matching_pages], by simp [get_best_matching_pages],
      by simp [get_best_matching_pages, rankSpec, stableSort]⟩
  · set F := fun p => calculate_match_score p kws with hF
    set g := fun ip : Nat × PyPage => (ip.2, F ip.2) with hgdef
    set A := d.enum.filter (fun ip => decide (0 < F ip.2)) with hA
    have hps : (d.map fun p => (p, F p)).filter (fun ps => decide (0 < ps.2))
        = A.map g := by
      have h := filter_map_pos_score F d.enum
      rw [List.enum_map_snd] at h
      exact h
    have hg : get_best_matching_pages d kws n
        = ((stableSort byScoreDesc (A.map g)).take n).map Prod.fst := by
      simp only [get_best_matching_pages, if_neg hd]
      rw [hps]
    have hA_pairwise : A.Pairwise fun a b => a.1 < b.1 :=
      (pairwise_fst_lt_enumFrom d 0).filter _
    have hmap : (stableSort (fun a b => decide (F b.2 ≤ F a.2)) A).map g
        = stableSort byScoreDesc (A.map g) :=
      stableSort_map g byScoreDesc A
    have hlex := stableSort_byKey_eq_lex F A hA_pairwise
    have hr : rankSpec d kws n
        = ((stableSort (keyDescIdxAsc F) A).take n).map Prod.snd := rfl
    have hfstg : Prod.fst ∘ g = Prod.snd := rfl
    have hc3 : get_best_matching_pages d kws n = rankSpec d kws n := by
      rw [hg, ← hmap, hlex, hr, ← List.map_take, List.map_map, hfstg]
    refine ⟨?_, ?_, hc3⟩
    · rw [hg]
      simp only [List.length_map, List.length_take]
      congr 1
      rw [(stableSort_perm byScoreDesc _).length_eq, List.length_map, hA,
        ← List.countP_eq_length_filter]
      conv_rhs => rw [← List.enum_map_snd d, List.countP_map]
      rfl
    · have hp := stableSort_pairwise (fun x : PyPage × ℚ => x.2) (fun _ _ => True)
        (A.map g) (pairwise_true _)
      have hmem : ∀ x ∈ stableSort byScoreDesc (A.map g), x.2 = F x.1 := by
        intro x hx
        obtain ⟨ip, _, rfl⟩ :=
          List.mem_map.mp ((stableSort_perm byScoreDesc (A.map g)).mem_iff.mp hx)
        rfl
      have hp2 : (stableSort byScoreDesc (A.map g)).Pairwise
          fun a b => F b.1 ≤ F a.1 := by
        refine List.Pairwise.imp_of_mem ?_ hp
        intro a b ha hb h
        rw [← hmem a ha, ← hmem b hb]
        rcases h with h' | ⟨h', _⟩
        · exact h'.le
        · exact h'.ge
      rw [hg, List.map_map, List.pairwise_map]
      exact hp2.take
